import Mathlib

/-!
Verification of `DepthFirstGraphNodeIterator`
(torch/csrc/jit/runtime/graph_iterator.h).

The iterator walks a JIT IR graph: a `Graph` owns a root `Block`, a
`Block` is an ordered sequence of `Node`s, and a node of kind
`prim::If` owns two child blocks (then/else) while a node of kind
`prim::Loop` or `prim::With` owns one child block.  All other kinds own
no child blocks.  We embed the graph as a finite tree and the cursor
`current_` as an optional position (a block context plus an index);
the C++ null iterator (`graph_node_list_iterator()`) is the `none`
state.  `move_up` / `move_next` / `next` are translated branch by
branch from the source.
-/

namespace DFGI

/-- Node kinds distinguished by the iterator: `prim::If`, `prim::Loop`,
`prim::With`; every other kind takes the "plain" path in
`move_next` / `move_up`. -/
inductive NodeKind : Type where
  | primIf
  | primLoop
  | primWith
  | plain
deriving DecidableEq

/-- A JIT IR node: a kind together with the ordered list of child blocks
it owns (`Node::blocks()`).  A block is an ordered list of nodes
(`Block::nodes()`); back-references (`owningBlock` / `owningNode`) are
implicit in the tree and recovered through positions below. -/
inductive GNode : Type where
  | node (kind : NodeKind) (blocks : List (List GNode)) : GNode

/-- `Node::kind()`. -/
def GNode.kind : GNode → NodeKind
  | .node k _ => k

/-- `Node::blocks()`. -/
def GNode.blocks : GNode → List (List GNode)
  | .node _ bs => bs

/-- Identifies a block inside the graph: the root block, or the
`blockIdx`-th child block of the node at index `nodeIdx` of the block
identified by `up`.  This is the chain of `owningBlock` / `owningNode`
back-references the C++ code climbs through. -/
inductive Ctx : Type where
  | root
  | child (up : Ctx) (nodeIdx : Nat) (blockIdx : Nat)
deriving DecidableEq

/-- A cursor position: a block plus the index of a node inside it.
The C++ `graph_node_list_iterator current_` is `Option Pos`,
with `none` for the null/end sentinel produced by
`graph_node_list_iterator()`. -/
abbrev Pos := Ctx × Nat

/-- Failures of the traversal: `badOwnerKind` is the
`throw std::runtime_error("Node should not have had any child blocks.")`
branch of `move_up`; `outOfRange` models `std::out_of_range` from
`blocks().at(i)` and any dangling back-reference. -/
inductive IterErr : Type where
  | badOwnerKind
  | outOfRange
deriving DecidableEq

/-- Resolve a block context to the block's node list (follows the
ownership chain downward from the root block `g`). -/
def blockAt (g : List GNode) : Ctx → Option (List GNode)
  | .root => some g
  | .child up i b =>
      (blockAt g up).bind fun blk =>
        (blk[i]?).bind fun nd => nd.blocks[b]?

/-- Resolve a position to the node it points at (`*current_`). -/
def nodeAt (g : List GNode) (p : Pos) : Option GNode :=
  (blockAt g p.1).bind fun blk => blk[p.2]?

/-- `DepthFirstGraphNodeIterator::move_up(Node* from)`, translated branch
by branch.  `from` is the node at index `idx` of the block `ctx`; the
linear pointer scans (`while (*it != from) ++it;`) are the index
arithmetic on `idx` and `i`.  The owning node of `ctx` is the node at
index `nodeIdx` in the context `up`, matching `owningNode()` /
`owningBlock()`. -/
def move_up (g : List GNode) : Ctx → Nat → Except IterErr (Option Pos)
  | Ctx.root, idx =>
      -- owningNode() == nullptr: advance past `from` in the root block,
      -- or become the null iterator at the end of the root block.
      if idx + 1 < g.length then Except.ok (some (Ctx.root, idx + 1))
      else Except.ok none
  | Ctx.child up i b, _idx =>
      match blockAt g up with
      | none => Except.error IterErr.outOfRange
      | some ownBlk =>
        match ownBlk[i]? with
        | none => Except.error IterErr.outOfRange
        | some owner =>
          match owner.kind with
          | NodeKind.primIf =>
            -- blocks().at(0) / blocks().at(1)
            match owner.blocks[0]?, owner.blocks[1]? with
            | some _thenB, some elseB =>
              if b == 1 then
                -- came from the else block: step past the owner
                if i + 1 < ownBlk.length then Except.ok (some (up, i + 1))
                else move_up g up i
              else
                -- came from the then block: fall through into else if
                -- non-empty, otherwise step past the owner
                if elseB.isEmpty then
                  if i + 1 < ownBlk.length then Except.ok (some (up, i + 1))
                  else move_up g up i
                else Except.ok (some (Ctx.child up i 1, 0))
            | _, _ => Except.error IterErr.outOfRange
          | NodeKind.primLoop =>
            if i + 1 < ownBlk.length then Except.ok (some (up, i + 1))
            else move_up g up i
          | NodeKind.primWith =>
            if i + 1 < ownBlk.length then Except.ok (some (up, i + 1))
            else move_up g up i
          | NodeKind.plain =>
            -- throw std::runtime_error("Node should not have had any
            -- child blocks.");
            Except.error IterErr.badOwnerKind

/-- `DepthFirstGraphNodeIterator::move_next()`, translated branch by
branch.  Note the `prim::Loop` / `prim::With` branch: when the body
block is empty the source has no else-branch and leaves `current_`
unchanged, so the cursor stays on the region node. -/
def move_next (g : List GNode) : Option Pos → Except IterErr (Option Pos)
  | none => Except.ok none
  | some (ctx, idx) =>
    match blockAt g ctx with
    | none => Except.error IterErr.outOfRange
    | some blk =>
      match blk[idx]? with
      | none => Except.error IterErr.outOfRange
      | some nd =>
        match nd.kind with
        | NodeKind.primIf =>
          match nd.blocks[0]?, nd.blocks[1]? with
          | some thenB, some elseB =>
            if thenB.isEmpty then
              if elseB.isEmpty then move_up g ctx idx
              else Except.ok (some (Ctx.child ctx idx 1, 0))
            else Except.ok (some (Ctx.child ctx idx 0, 0))
          | _, _ => Except.error IterErr.outOfRange
        | NodeKind.primLoop =>
          match nd.blocks[0]? with
          | some body =>
            if body.isEmpty then Except.ok (some (ctx, idx))
            else Except.ok (some (Ctx.child ctx idx 0, 0))
          | none => Except.error IterErr.outOfRange
        | NodeKind.primWith =>
          match nd.blocks[0]? with
          | some body =>
            if body.isEmpty then Except.ok (some (ctx, idx))
            else Except.ok (some (Ctx.child ctx idx 0, 0))
          | none => Except.error IterErr.outOfRange
        | NodeKind.plain =>
          if idx + 1 < blk.length then Except.ok (some (ctx, idx + 1))
          else move_up g ctx idx

/-- Modelled from the spec: the constructor
`current_(graph->block()->nodes().begin())` uses `Block::nodes()` and
`graph_node_list_iterator` from torch/csrc/jit/ir/ir.h, which is not
part of the sources here.  Per the spec ("initialize position to the
first entry of the root block (exhausted immediately if the root block
is empty)"), the begin iterator of an empty root block is the end
sentinel, modelled as the exhausted state `none`. -/
def initState (g : List GNode) : Option Pos :=
  if g.isEmpty then none else some (Ctx.root, 0)

/-- `DepthFirstGraphNodeIterator::next()`: return the node position the
cursor is on (`none` = the nullptr exhaustion signal), paired with the
cursor state after `move_next()`. -/
def nextCall (g : List GNode) (st : Option Pos) :
    Except IterErr (Option Pos × Option Pos) :=
  (move_next g st).map fun st2 => (st, st2)

/-- Cursor state after `n` calls to `next()` on a freshly constructed
iterator (state 0 is the constructor's state; the `(n+1)`-st call to
`next()` returns the node at state `n`). -/
def iterState (g : List GNode) : Nat → Except IterErr (Option Pos)
  | 0 => Except.ok (initState g)
  | n + 1 => (iterState g n).bind (move_next g)

/-- Number of child blocks a node of each kind owns (spec §3,
invariants 2 and 3). -/
def kindNumBlocks : NodeKind → Nat
  | NodeKind.primIf => 2
  | NodeKind.primLoop => 1
  | NodeKind.primWith => 1
  | NodeKind.plain => 0

/-- Well-formed node: the number of child blocks matches the kind
(two for `prim::If`, one for `prim::Loop` / `prim::With`, none
otherwise), recursively. -/
inductive WFNode : GNode → Prop where
  | intro (k : NodeKind) (bs : List (List GNode))
      (hlen : bs.length = kindNumBlocks k)
      (hrec : ∀ b ∈ bs, ∀ n ∈ b, WFNode n) :
      WFNode (GNode.node k bs)

/-- Well-formed block: every node in it is well-formed. -/
def WFBlock (blk : List GNode) : Prop := ∀ n ∈ blk, WFNode n

/-- Pre-order address of a block context: the interleaved node-index /
block-index path from the root. -/
def Ctx.route : Ctx → List Nat
  | .root => []
  | .child up i b => Ctx.route up ++ [i, b]

/-- Pre-order address of a position. -/
def posRoute (p : Pos) : List Nat := Ctx.route p.1 ++ [p.2]

/-- Strict lexicographic order on routes, with a proper prefix
(an ancestor node) ordered before its extensions (the nodes inside
its child blocks): exactly the depth-first emission order. -/
inductive RouteLt : List Nat → List Nat → Prop where
  | nil (b : Nat) (t : List Nat) : RouteLt [] (b :: t)
  | head {a b : Nat} (s t : List Nat) (h : a < b) : RouteLt (a :: s) (b :: t)
  | tail {a : Nat} {s t : List Nat} (h : RouteLt s t) :
      RouteLt (a :: s) (a :: t)

/-- Example nodes and graphs used in the concrete scenarios. -/
def plainN : GNode := GNode.node NodeKind.plain []

/-- A `prim::Loop`/`prim::With` region node with an empty body block. -/
def emptyRegion : GNode := GNode.node NodeKind.primLoop [[]]

/-- Root block `[A, Region(body=[]), D]` (spec scenario 6). -/
def exC1 : List GNode := [plainN, emptyRegion, plainN]

/-- Root block `[Region(body=[]), D]`. -/
def exC2 : List GNode := [emptyRegion, plainN]

/-- Root block `[Conditional(then=[Region(body=[])], else=[C])]`. -/
def exC3 : List GNode := [GNode.node NodeKind.primIf [[emptyRegion], [plainN]]]

/-- Root block `[If(then=[B], else=[C])]`. -/
def exC4 : List GNode := [GNode.node NodeKind.primIf [[plainN], [plainN]]]

/-- Root block `[A, Conditional(then=[], else=[C]), D]` (spec scenario 4). -/
def exC5 : List GNode := [plainN, GNode.node NodeKind.primIf [[], [plainN]], plainN]

/-- Root block `[Region(body=[])]`. -/
def exC6 : List GNode := [emptyRegion]

/-- A malformed graph: a plain-kind node owning a child block. -/
def exBadOwner : List GNode := [GNode.node NodeKind.plain [[plainN]]]

/-! ### Order lemmas for routes -/

theorem routeLt_trans {s t u : List Nat} (h1 : RouteLt s t) (h2 : RouteLt t u) :
    RouteLt s u := by
  induction h1 generalizing u with
  | nil b t =>
    cases h2 with
    | head _ _ h => exact RouteLt.nil _ _
    | tail h => exact RouteLt.nil _ _
  | head s t h =>
    cases h2 with
    | head _ _ h' => exact RouteLt.head _ _ (Nat.lt_trans h h')
    | tail h' => exact RouteLt.head _ _ h
  | tail h ih =>
    cases h2 with
    | head _ _ h' => exact RouteLt.head _ _ h'
    | tail h' => exact RouteLt.tail (ih h')

theorem routeLt_append_left (P : List Nat) {s t : List Nat} (h : RouteLt s t) :
    RouteLt (P ++ s) (P ++ t) := by
  induction P with
  | nil => simpa using h
  | cons x P ih => exact RouteLt.tail ih

theorem routeLt_append_cons (s : List Nat) (a : Nat) (t : List Nat) :
    RouteLt s (s ++ a :: t) := by
  induction s with
  | nil => exact RouteLt.nil a t
  | cons x s ih => exact RouteLt.tail ih

theorem not_routeLt_append (P : List Nat) {a b : Nat} (s t : List Nat)
    (h : b < a) : ¬ RouteLt (P ++ a :: s) (P ++ b :: t) := by
  induction P with
  | nil =>
    intro hc
    cases hc with
    | head _ _ h' => exact absurd h' (Nat.lt_asymm h)
    | tail h' => exact Nat.lt_irrefl _ h
  | cons x P ih =>
    intro hc
    cases hc with
    | head _ _ h' => exact Nat.lt_irrefl _ h'
    | tail h' => exact ih h'

theorem append_cons_inj_head (P : List Nat) {a b : Nat} {s t : List Nat}
    (he : P ++ a :: s = P ++ b :: t) : a = b := by
  have h2 := List.append_cancel_left he
  injection h2

/-! ### Well-formedness helpers -/

theorem wfBlock_nil : WFBlock ([] : List GNode) := by
  intro n hn
  exact absurd hn (List.not_mem_nil n)

theorem wfBlock_cons {n : GNode} {l : List GNode} (h1 : WFNode n)
    (h2 : WFBlock l) : WFBlock (n :: l) := by
  intro m hm
  rcases List.mem_cons.mp hm with h | h
  · rw [h]; exact h1
  · exact h2 m h

theorem wfNode_plain : WFNode plainN := by
  constructor
  · rfl
  · intro b hb
    exact absurd hb (List.not_mem_nil b)

theorem wfNode_region {b : List GNode} (h : WFBlock b) :
    WFNode (GNode.node NodeKind.primLoop [b]) := by
  constructor
  · rfl
  · intro bb hbb n hn
    rw [List.mem_singleton] at hbb
    rw [hbb] at hn
    exact h n hn

theorem wfNode_if {b1 b2 : List GNode} (h1 : WFBlock b1) (h2 : WFBlock b2) :
    WFNode (GNode.node NodeKind.primIf [b1, b2]) := by
  constructor
  · rfl
  · intro bb hbb n hn
    rcases List.mem_cons.mp hbb with h | h
    · rw [h] at hn; exact h1 n hn
    · rw [List.mem_singleton] at h
      rw [h] at hn
      exact h2 n hn

theorem WFNode.blocks_length {k : NodeKind} {bs : List (List GNode)}
    (h : WFNode (GNode.node k bs)) : bs.length = kindNumBlocks k := by
  cases h with
  | intro k bs hlen hrec => exact hlen

theorem WFNode.child_wf {k : NodeKind} {bs : List (List GNode)}
    (h : WFNode (GNode.node k bs)) : ∀ b ∈ bs, WFBlock b := by
  cases h with
  | intro k bs hlen hrec => exact fun b hb n hn => hrec b hb n hn

/-! ### Resolution helpers -/

theorem getElem?_isSome_of_lt {α : Type} {l : List α} {n : Nat}
    (h : n < l.length) : l[n]?.isSome = true := by
  rw [← List.get?_eq_getElem?]
  cases hg : l.get? n with
  | none => exact absurd (List.get?_eq_none.mp hg) (Nat.not_le.mpr h)
  | some a => rfl

theorem lt_of_getElem?_eq_some {α : Type} {l : List α} {n : Nat} {a : α}
    (h : l[n]? = some a) : n < l.length := by
  rw [← List.get?_eq_getElem?] at h
  rcases List.get?_eq_some.mp h with ⟨h1, _⟩
  exact h1

theorem mem_of_getElem?_eq_some {α : Type} {l : List α} {n : Nat} {a : α}
    (h : l[n]? = some a) : a ∈ l := by
  rw [← List.get?_eq_getElem?] at h
  exact List.get?_mem h

theorem getElem?_zero_isSome_of_not_isEmpty {α : Type} {l : List α}
    (h : l.isEmpty = false) : l[0]?.isSome = true := by
  cases l with
  | nil => simp at h
  | cons a t => simp

theorem list_len_two {α : Type} {l : List α} (h : l.length = 2) :
    ∃ a b, l = [a, b] := by
  match l, h with
  | [a, b], _ => exact ⟨a, b, rfl⟩

theorem list_len_one {α : Type} {l : List α} (h : l.length = 1) :
    ∃ a, l = [a] := by
  match l, h with
  | [a], _ => exact ⟨a, rfl⟩

theorem blockAt_child_iff {g : List GNode} {up : Ctx} {i b : Nat}
    {blk : List GNode} :
    blockAt g (Ctx.child up i b) = some blk ↔
      ∃ pb nd, blockAt g up = some pb ∧ pb[i]? = some nd ∧
        nd.blocks[b]? = some blk := by
  constructor
  · intro h
    simp only [blockAt] at h
    rcases Option.bind_eq_some.mp h with ⟨pb, hpb, h2⟩
    rcases Option.bind_eq_some.mp h2 with ⟨nd, hnd, h3⟩
    exact ⟨pb, nd, hpb, hnd, h3⟩
  · rintro ⟨pb, nd, hpb, hnd, h3⟩
    simp only [blockAt, hpb, Option.some_bind, hnd, h3]

theorem nodeAt_eq_some {g : List GNode} {p : Pos} {nd : GNode} :
    nodeAt g p = some nd ↔
      ∃ blk, blockAt g p.1 = some blk ∧ blk[p.2]? = some nd := by
  constructor
  · intro h
    simp only [nodeAt] at h
    rcases Option.bind_eq_some.mp h with ⟨blk, hblk, h2⟩
    exact ⟨blk, hblk, h2⟩
  · rintro ⟨blk, hblk, h2⟩
    simp only [nodeAt, hblk, Option.some_bind, h2]

theorem wf_blockAt {g : List GNode} (hwf : WFBlock g) :
    ∀ {ctx : Ctx} {blk : List GNode}, blockAt g ctx = some blk → WFBlock blk := by
  intro ctx
  induction ctx with
  | root =>
    intro blk h
    exact Option.some.inj h ▸ hwf
  | child up i b ih =>
    intro blk h
    rcases blockAt_child_iff.mp h with ⟨pb, nd, hpb, hnd, h3⟩
    have hpbwf : WFBlock pb := ih hpb
    have hndwf : WFNode nd := hpbwf nd (mem_of_getElem?_eq_some hnd)
    cases nd with
    | node k bs =>
      exact hndwf.child_wf blk (mem_of_getElem?_eq_some h3)

/-! ### The climb: `move_up` never fails on a well-formed graph, lands on
an actual node, and strictly advances the depth-first order past the
whole subtree of the block it climbs from. -/

theorem move_up_spec {g : List GNode} (hwf : WFBlock g) :
    ∀ (ctx : Ctx) (idx : Nat), (blockAt g ctx).isSome = true →
      ∃ r, move_up g ctx idx = Except.ok r ∧
        ∀ q, r = some q → (nodeAt g q).isSome = true ∧
          ∀ s, RouteLt (Ctx.route ctx ++ idx :: s) (posRoute q) := by
  intro ctx
  induction ctx with
  | root =>
    intro idx _
    by_cases hlt : idx + 1 < g.length
    · refine ⟨some (Ctx.root, idx + 1), by simp [move_up, hlt], ?_⟩
      intro q hq
      cases hq
      constructor
      · exact getElem?_isSome_of_lt hlt
      · intro s
        simp only [Ctx.route, posRoute, List.nil_append]
        exact RouteLt.head _ _ (Nat.lt_succ_self idx)
    · exact ⟨none, by simp [move_up, hlt], fun q hq => Option.noConfusion hq⟩
  | child up i b ih =>
    intro idx hctx
    rcases Option.isSome_iff_exists.mp hctx with ⟨cb, hcb⟩
    rcases blockAt_child_iff.mp hcb with ⟨pb, nd, hpb, hnd, hblk⟩
    have hpbwf : WFBlock pb := wf_blockAt hwf hpb
    have hndwf : WFNode nd := hpbwf nd (mem_of_getElem?_eq_some hnd)
    have hupok : (blockAt g up).isSome = true := by
      rw [hpb]; rfl
    -- step past the owner inside its own block, or climb again
    have hstep : ∃ r, (if i + 1 < pb.length then
          Except.ok (some (up, i + 1)) else move_up g up i) = Except.ok r ∧
        ∀ q, r = some q → (nodeAt g q).isSome = true ∧
          ∀ s, RouteLt (Ctx.route (Ctx.child up i b) ++ idx :: s) (posRoute q) := by
      by_cases hlt : i + 1 < pb.length
      · refine ⟨some (up, i + 1), by simp [hlt], ?_⟩
        intro q hq
        cases hq
        constructor
        · simp only [nodeAt, hpb, Option.some_bind]
          exact getElem?_isSome_of_lt hlt
        · intro s
          simp only [Ctx.route, posRoute, List.append_assoc, List.cons_append,
            List.nil_append]
          exact routeLt_append_left (Ctx.route up)
            (RouteLt.head _ _ (Nat.lt_succ_self i))
      · rcases ih i hupok with ⟨r, hr, hq⟩
        refine ⟨r, by simp [hlt, hr], ?_⟩
        intro q hrq
        refine ⟨(hq q hrq).1, ?_⟩
        intro s
        have := (hq q hrq).2 (b :: idx :: s)
        simpa [Ctx.route, List.append_assoc] using this
    cases nd with
    | node k bs =>
      have hlen : bs.length = kindNumBlocks k := hndwf.blocks_length
      cases k with
      | primIf =>
        rcases list_len_two hlen with ⟨b1, b2, rfl⟩
        by_cases hb1 : b = 1
        · rcases hstep with ⟨r, hr, hq⟩
          refine ⟨r, ?_, hq⟩
          simp [move_up, hpb, hnd, GNode.kind, GNode.blocks, hb1, hr]
        · -- came from the then block (b = 0 by well-formedness)
          have hb0 : b = 0 := by
            have hblt : b < 2 := by
              have := lt_of_getElem?_eq_some hblk
              simpa [GNode.blocks] using this
            omega
          by_cases hemp : b2.isEmpty
          · rcases hstep with ⟨r, hr, hq⟩
            refine ⟨r, ?_, hq⟩
            simp [move_up, hpb, hnd, GNode.kind, GNode.blocks, hb1, hemp, hr]
          · refine ⟨some (Ctx.child up i 1, 0), ?_, ?_⟩
            · simp [move_up, hpb, hnd, GNode.kind, GNode.blocks, hb1, hemp]
            · intro q hq
              cases hq
              constructor
              · have hb2 : blockAt g (Ctx.child up i 1) = some b2 :=
                  blockAt_child_iff.mpr ⟨pb, GNode.node NodeKind.primIf [b1, b2],
                    hpb, hnd, rfl⟩
                simp only [nodeAt, hb2, Option.some_bind]
                exact getElem?_zero_isSome_of_not_isEmpty
                  (Bool.eq_false_iff.mpr hemp)
              · intro s
                rw [hb0]
                simp only [Ctx.route, posRoute, List.append_assoc,
                  List.cons_append, List.nil_append]
                exact routeLt_append_left (Ctx.route up)
                  (RouteLt.tail (RouteLt.head _ _ Nat.zero_lt_one))
      | primLoop =>
        rcases list_len_one hlen with ⟨b1, rfl⟩
        rcases hstep with ⟨r, hr, hq⟩
        refine ⟨r, ?_, hq⟩
        simp [move_up, hpb, hnd, GNode.kind, hr]
      | primWith =>
        rcases list_len_one hlen with ⟨b1, rfl⟩
        rcases hstep with ⟨r, hr, hq⟩
        refine ⟨r, ?_, hq⟩
        simp [move_up, hpb, hnd, GNode.kind, hr]
      | plain =>
        exfalso
        have : bs = [] := List.length_eq_zero.mp hlen
        rw [this] at hblk
        simp [GNode.blocks] at hblk

/-! ### One forward step: `move_next` never fails on a well-formed graph,
lands on an actual node (or the exhausted sentinel), and never moves the
cursor backwards in the depth-first order.  The position can stay put:
that is exactly the empty-body region branch. -/

theorem move_next_spec {g : List GNode} (hwf : WFBlock g) {p : Pos}
    (hp : (nodeAt g p).isSome = true) :
    ∃ r, move_next g (some p) = Except.ok r ∧
      ∀ q, r = some q → (nodeAt g q).isSome = true ∧
        (p = q ∨ RouteLt (posRoute p) (posRoute q)) := by
  obtain ⟨ctx, idx⟩ := p
  rcases Option.isSome_iff_exists.mp hp with ⟨nd, hnd⟩
  rcases nodeAt_eq_some.mp hnd with ⟨blk, hblk, hget⟩
  have hblkwf : WFBlock blk := wf_blockAt hwf hblk
  have hndwf : WFNode nd := hblkwf nd (mem_of_getElem?_eq_some hget)
  have hctxok : (blockAt g ctx).isSome = true := by rw [hblk]; rfl
  cases nd with
  | node k bs =>
    have hlen : bs.length = kindNumBlocks k := hndwf.blocks_length
    cases k with
    | primIf =>
      rcases list_len_two hlen with ⟨b1, b2, rfl⟩
      by_cases h1 : b1.isEmpty
      · by_cases h2 : b2.isEmpty
        · -- both blocks empty: climb
          rcases move_up_spec hwf ctx idx hctxok with ⟨r, hr, hq⟩
          refine ⟨r, ?_, ?_⟩
          · simp [move_next, hblk, hget, GNode.kind, GNode.blocks, h1, h2, hr]
          · intro q hrq
            refine ⟨(hq q hrq).1, Or.inr ?_⟩
            simpa [posRoute] using (hq q hrq).2 []
        · -- empty then block: descend into the else block
          refine ⟨some (Ctx.child ctx idx 1, 0), ?_, ?_⟩
          · simp [move_next, hblk, hget, GNode.kind, GNode.blocks, h1, h2]
          · intro q hq
            cases hq
            constructor
            · have hb2 : blockAt g (Ctx.child ctx idx 1) = some b2 :=
                blockAt_child_iff.mpr
                  ⟨blk, GNode.node NodeKind.primIf [b1, b2], hblk, hget, rfl⟩
              simp only [nodeAt, hb2, Option.some_bind]
              exact getElem?_zero_isSome_of_not_isEmpty
                (Bool.eq_false_iff.mpr h2)
            · refine Or.inr ?_
              simp only [posRoute, Ctx.route, List.append_assoc,
                List.cons_append, List.nil_append]
              exact routeLt_append_left (Ctx.route ctx)
                (RouteLt.tail (routeLt_append_cons [] 1 [0]))
      · -- non-empty then block: descend into it
        refine ⟨some (Ctx.child ctx idx 0, 0), ?_, ?_⟩
        · simp [move_next, hblk, hget, GNode.kind, GNode.blocks, h1]
        · intro q hq
          cases hq
          constructor
          · have hb1 : blockAt g (Ctx.child ctx idx 0) = some b1 :=
              blockAt_child_iff.mpr
                ⟨blk, GNode.node NodeKind.primIf [b1, b2], hblk, hget, rfl⟩
            simp only [nodeAt, hb1, Option.some_bind]
            exact getElem?_zero_isSome_of_not_isEmpty
              (Bool.eq_false_iff.mpr h1)
          · refine Or.inr ?_
            simp only [posRoute, Ctx.route, List.append_assoc,
              List.cons_append, List.nil_append]
            exact routeLt_append_left (Ctx.route ctx)
              (RouteLt.tail (routeLt_append_cons [] 0 [0]))
    | primLoop =>
      rcases list_len_one hlen with ⟨b1, rfl⟩
      by_cases h1 : b1.isEmpty
      · -- empty body block: the cursor stays on the region node
        refine ⟨some (ctx, idx), ?_, ?_⟩
        · simp [move_next, hblk, hget, GNode.kind, GNode.blocks, h1]
        · intro q hq
          cases hq
          exact ⟨hp, Or.inl rfl⟩
      · refine ⟨some (Ctx.child ctx idx 0, 0), ?_, ?_⟩
        · simp [move_next, hblk, hget, GNode.kind, GNode.blocks, h1]
        · intro q hq
          cases hq
          constructor
          · have hb1 : blockAt g (Ctx.child ctx idx 0) = some b1 :=
              blockAt_child_iff.mpr
                ⟨blk, GNode.node NodeKind.primLoop [b1], hblk, hget, rfl⟩
            simp only [nodeAt, hb1, Option.some_bind]
            exact getElem?_zero_isSome_of_not_isEmpty
              (Bool.eq_false_iff.mpr h1)
          · refine Or.inr ?_
            simp only [posRoute, Ctx.route, List.append_assoc,
              List.cons_append, List.nil_append]
            exact routeLt_append_left (Ctx.route ctx)
              (RouteLt.tail (routeLt_append_cons [] 0 [0]))
    | primWith =>
      rcases list_len_one hlen with ⟨b1, rfl⟩
      by_cases h1 : b1.isEmpty
      · refine ⟨some (ctx, idx), ?_, ?_⟩
        · simp [move_next, hblk, hget, GNode.kind, GNode.blocks, h1]
        · intro q hq
          cases hq
          exact ⟨hp, Or.inl rfl⟩
      · refine ⟨some (Ctx.child ctx idx 0, 0), ?_, ?_⟩
        · simp [move_next, hblk, hget, GNode.kind, GNode.blocks, h1]
        · intro q hq
          cases hq
          constructor
          · have hb1 : blockAt g (Ctx.child ctx idx 0) = some b1 :=
              blockAt_child_iff.mpr
                ⟨blk, GNode.node NodeKind.primWith [b1], hblk, hget, rfl⟩
            simp only [nodeAt, hb1, Option.some_bind]
            exact getElem?_zero_isSome_of_not_isEmpty
              (Bool.eq_false_iff.mpr h1)
          · refine Or.inr ?_
            simp only [posRoute, Ctx.route, List.append_assoc,
              List.cons_append, List.nil_append]
            exact routeLt_append_left (Ctx.route ctx)
              (RouteLt.tail (routeLt_append_cons [] 0 [0]))
    | plain =>
      by_cases hlt : idx + 1 < blk.length
      · refine ⟨some (ctx, idx + 1), ?_, ?_⟩
        · simp [move_next, hblk, hget, GNode.kind, hlt]
        · intro q hq
          cases hq
          constructor
          · simp only [nodeAt, hblk, Option.some_bind]
            exact getElem?_isSome_of_lt hlt
          · refine Or.inr ?_
            simp only [posRoute]
            exact routeLt_append_left (Ctx.route ctx)
              (RouteLt.head _ _ (Nat.lt_succ_self idx))
      · rcases move_up_spec hwf ctx idx hctxok with ⟨r, hr, hq⟩
        refine ⟨r, ?_, ?_⟩
        · simp [move_next, hblk, hget, GNode.kind, hlt, hr]
        · intro q hrq
          refine ⟨(hq q hrq).1, Or.inr ?_⟩
          simpa [posRoute] using (hq q hrq).2 []

/-! ### Whole-traversal lemmas -/

theorem iterState_spec {g : List GNode} (hwf : WFBlock g) :
    ∀ n, ∃ s, iterState g n = Except.ok s ∧
      ∀ p, s = some p → (nodeAt g p).isSome = true := by
  intro n
  induction n with
  | zero =>
    refine ⟨initState g, rfl, ?_⟩
    intro p hp
    by_cases hg : g.isEmpty
    · rw [initState, if_pos hg] at hp
      exact Option.noConfusion hp
    · rw [initState, if_neg hg] at hp
      cases hp
      simp only [nodeAt, blockAt, Option.some_bind]
      exact getElem?_zero_isSome_of_not_isEmpty (Bool.eq_false_iff.mpr hg)
  | succ n ihn =>
    rcases ihn with ⟨s, hs, hv⟩
    cases s with
    | none =>
      refine ⟨none, ?_, fun p hp => Option.noConfusion hp⟩
      simp only [iterState, hs]
      rfl
    | some p =>
      have hpv := hv p rfl
      rcases move_next_spec hwf hpv with ⟨r, hr, hq⟩
      refine ⟨r, ?_, fun q hrq => (hq q hrq).1⟩
      simp only [iterState, hs]
      simpa using hr

theorem iterState_succ_some {g : List GNode} {n : Nat} {q : Pos}
    (h : iterState g (n + 1) = Except.ok (some q)) :
    ∃ p, iterState g n = Except.ok (some p) ∧
      move_next g (some p) = Except.ok (some q) := by
  simp only [iterState] at h
  cases hs : iterState g n with
  | error e =>
    rw [hs] at h
    simp [Except.bind] at h
  | ok s =>
    rw [hs] at h
    have h' : move_next g s = Except.ok (some q) := by
      simpa [Except.bind] using h
    cases s with
    | none =>
      simp [move_next] at h'
    | some p => exact ⟨p, rfl, h'⟩

theorem iterState_mono {g : List GNode} (hwf : WFBlock g) :
    ∀ (i k : Nat) (p q : Pos), iterState g i = Except.ok (some p) →
      iterState g (i + k) = Except.ok (some q) →
      p = q ∨ RouteLt (posRoute p) (posRoute q) := by
  intro i k
  induction k with
  | zero =>
    intro p q h1 h2
    rw [Nat.add_zero, h1] at h2
    exact Or.inl (Option.some.inj (Except.ok.inj h2))
  | succ k ihk =>
    intro p q h1 h2
    have h2' : iterState g ((i + k) + 1) = Except.ok (some q) := h2
    rcases iterState_succ_some h2' with ⟨m, hm, hstep⟩
    have hpm := ihk p m h1 hm
    rcases iterState_spec hwf (i + k) with ⟨s, hs, hv⟩
    rw [hs] at hm
    have hsm : s = some m := Except.ok.inj hm
    have hmv : (nodeAt g m).isSome = true := hv m hsm
    rcases move_next_spec hwf hmv with ⟨r, hr, hq⟩
    rw [hstep] at hr
    have hrq : r = some q := (Except.ok.inj hr).symm
    have hmq := (hq q hrq).2
    rcases hpm with rfl | hlt1
    · exact hmq
    · rcases hmq with rfl | hlt2
      · exact Or.inr hlt1
      · exact Or.inr (routeLt_trans hlt1 hlt2)

/-- If the cursor position is a fixpoint of `move_next` (the empty-body
region case), every later state is that same position. -/
theorem iterState_fix {g : List GNode} {p : Pos} {n0 : Nat}
    (h0 : iterState g n0 = Except.ok (some p))
    (hfix : move_next g (some p) = Except.ok (some p)) :
    ∀ k, iterState g (n0 + k) = Except.ok (some p) := by
  intro k
  induction k with
  | zero => simpa using h0
  | succ k ih =>
    have hstep : iterState g ((n0 + k) + 1) =
        (iterState g (n0 + k)).bind (move_next g) := rfl
    rw [show n0 + (k + 1) = (n0 + k) + 1 from rfl, hstep, ih]
    simpa [Except.bind] using hfix

theorem wf_exC4 : WFBlock exC4 :=
  wfBlock_cons
    (wfNode_if (wfBlock_cons wfNode_plain wfBlock_nil)
      (wfBlock_cons wfNode_plain wfBlock_nil))
    wfBlock_nil

theorem wf_exC5 : WFBlock exC5 :=
  wfBlock_cons wfNode_plain
    (wfBlock_cons
      (wfNode_if wfBlock_nil (wfBlock_cons wfNode_plain wfBlock_nil))
      (wfBlock_cons wfNode_plain wfBlock_nil))

/-! ### Claims -/

/-- Claim C1: the spec requires that after `next()` returns a Region
(Loop/With) node with an empty child block the cursor climbs, so root
block `[A, Region(body=[]), D]` yields `[A, R, D, exhausted]`.  The code
does not: on the graph `exC1 = [A, Region(body=[]), D]`, after the
second call the cursor sits on the Region at `(root, 1)` and every later
state is still `(root, 1)` — `next()` returns the Region forever, `D` is
never reached and exhaustion never happens.  This is the evaluation of
the code at the failing input. -/
theorem c1_empty_region_body_stalls :
    nodeAt exC1 (Ctx.root, 1) = some emptyRegion ∧
    iterState exC1 1 = Except.ok (some (Ctx.root, 1)) ∧
    ∀ k, iterState exC1 (1 + k) = Except.ok (some (Ctx.root, 1)) :=
  ⟨rfl, rfl, iterState_fix rfl rfl⟩

/-- Claim C2: the spec requires every node to be emitted exactly once,
with the emitted count equal to the total node count.  On the
well-formed graph `exC2 = [Region(body=[]), D]` the code emits the
Region (position `(root, 0)`) at every single call: the cursor state is
`(root, 0)` after any number of calls, so `D` at `(root, 1)` is never
emitted, the Region is emitted infinitely often, and exhaustion is never
signalled.  This is the evaluation of the code at the failing input. -/
theorem c2_completeness_fails_on_code :
    (∀ k, iterState exC2 k = Except.ok (some (Ctx.root, 0))) ∧
    nodeAt exC2 (Ctx.root, 0) = some emptyRegion := by
  refine ⟨?_, rfl⟩
  intro k
  have h := @iterState_fix exC2 (Ctx.root, 0) 0 rfl rfl k
  simpa using h

/-- Claim C3: the spec requires every node of a control node's child
blocks to appear in the emitted sequence (after the control node, before
its next sibling).  On the well-formed graph
`exC3 = [Conditional(then=[Region(body=[])], else=[C])]` the code emits
the Conditional (state 0, position `(root, 0)`), then the then-block
Region (position `(child root 0 0, 0)`), and then stalls there forever:
every state from call 1 on is the Region position, so `C` — a node of
the Conditional's else child block, at position `(child root 0 1, 0)` —
never appears.  This is the evaluation of the code at the failing
input. -/
theorem c3_preorder_fails_on_code :
    iterState exC3 0 = Except.ok (some (Ctx.root, 0)) ∧
    ∀ k, iterState exC3 (1 + k) =
      Except.ok (some (Ctx.child Ctx.root 0 0, 0)) :=
  ⟨rfl, iterState_fix rfl rfl⟩

/-- Claim C4: for a `Conditional` node with non-empty then- and
else-blocks, every then-block node is emitted before every else-block
node.  Part one is the climb rule: `move_up` called from inside the
then-block (child block 0) of such a node always lands on the first
node of the else-block.  Part two is the global ordering: if the state
after `i` calls is a position inside the then subtree (route
`…, idxN, 0, …`) and the state after `j` calls is inside the else
subtree (route `…, idxN, 1, …`), then `i < j`. -/
theorem c4_both_branches (g : List GNode) (ctxN : Ctx) (idxN : Nat)
    (thenB elseB : List GNode) (hwf : WFBlock g)
    (hN : nodeAt g (ctxN, idxN) =
      some (GNode.node NodeKind.primIf [thenB, elseB]))
    (_hthen : thenB.isEmpty = false) (helse : elseB.isEmpty = false) :
    (∀ idx, move_up g (Ctx.child ctxN idxN 0) idx =
        Except.ok (some (Ctx.child ctxN idxN 1, 0))) ∧
    (∀ (i j : Nat) (p1 p2 : Pos) (s1 s2 : List Nat),
        iterState g i = Except.ok (some p1) →
        iterState g j = Except.ok (some p2) →
        posRoute p1 = Ctx.route ctxN ++ idxN :: 0 :: s1 →
        posRoute p2 = Ctx.route ctxN ++ idxN :: 1 :: s2 →
        i < j) := by
  rcases nodeAt_eq_some.mp hN with ⟨blk, hblk, hget⟩
  constructor
  · intro idx
    simp [move_up, hblk, hget, GNode.kind, GNode.blocks, helse]
  · intro i j p1 p2 s1 s2 h1 h2 hr1 hr2
    by_contra hij
    have hji : j ≤ i := Nat.not_lt.mp hij
    have hk : j + (i - j) = i := Nat.add_sub_cancel' hji
    have hmono := iterState_mono hwf j (i - j) p2 p1 h2 (by rw [hk]; exact h1)
    have e1 : posRoute p1 = (Ctx.route ctxN ++ [idxN]) ++ 0 :: s1 := by
      rw [hr1]; simp
    have e2 : posRoute p2 = (Ctx.route ctxN ++ [idxN]) ++ 1 :: s2 := by
      rw [hr2]; simp
    rcases hmono with heq | hlt
    · have : (Ctx.route ctxN ++ [idxN]) ++ 1 :: s2 =
          (Ctx.route ctxN ++ [idxN]) ++ 0 :: s1 := by
        rw [← e2, ← e1, heq]
      exact absurd (append_cons_inj_head _ this) (by omega)
    · rw [e1, e2] at hlt
      exact not_routeLt_append (Ctx.route ctxN ++ [idxN]) s2 s1
        Nat.zero_lt_one hlt

/-- Witness for C4 on `exC4 = [If(then=[B], else=[C])]`: the climb from
the then-block lands on the first else-block node, and the then-block
node (emitted at call 1, route `[0, 0, 0]`) precedes the else-block node
(emitted at call 2, route `[0, 1, 0]`). -/
theorem c4_both_branches_witness :
    (move_up exC4 (Ctx.child Ctx.root 0 0) 0 =
      Except.ok (some (Ctx.child Ctx.root 0 1, 0))) ∧ (1 < 2) := by
  have h := c4_both_branches exC4 Ctx.root 0 [plainN] [plainN]
    wf_exC4 rfl rfl rfl
  exact ⟨h.1 0, h.2 1 2 (Ctx.child Ctx.root 0 0, 0)
    (Ctx.child Ctx.root 0 1, 0) [0] [0] rfl rfl rfl rfl⟩

/-- Claim C5: after `next()` returns a Conditional node, the cursor
descends into the then-block if non-empty, else into the else-block if
non-empty, else climbs from the Conditional — exactly the `prim::If`
branch of `move_next`.  The second part is the spec's scenario: root
block `[A, Conditional(then=[], else=[C]), D]` yields the state
sequence `A, Cond, C, D, exhausted, exhausted`. -/
theorem c5_conditional_descent (g : List GNode) (ctx : Ctx) (idx : Nat)
    (thenB elseB : List GNode)
    (hN : nodeAt g (ctx, idx) =
      some (GNode.node NodeKind.primIf [thenB, elseB])) :
    (move_next g (some (ctx, idx)) =
      (if thenB.isEmpty then
        (if elseB.isEmpty then move_up g ctx idx
         else Except.ok (some (Ctx.child ctx idx 1, 0)))
       else Except.ok (some (Ctx.child ctx idx 0, 0)))) ∧
    (iterState exC5 0 = Except.ok (some (Ctx.root, 0)) ∧
     iterState exC5 1 = Except.ok (some (Ctx.root, 1)) ∧
     iterState exC5 2 = Except.ok (some (Ctx.child Ctx.root 1 1, 0)) ∧
     iterState exC5 3 = Except.ok (some (Ctx.root, 2)) ∧
     iterState exC5 4 = Except.ok none ∧
     iterState exC5 5 = Except.ok none) := by
  constructor
  · rcases nodeAt_eq_some.mp hN with ⟨blk, hblk, hget⟩
    simp [move_next, hblk, hget, GNode.kind, GNode.blocks]
  · exact ⟨rfl, rfl, rfl, rfl, rfl, rfl⟩

/-- Witness for C5: on `exC5 = [A, Conditional(then=[], else=[C]), D]`,
advancing from the Conditional at `(root, 1)` descends into the first
node of the else-block. -/
theorem c5_conditional_descent_witness :
    move_next exC5 (some (Ctx.root, 1)) =
      Except.ok (some (Ctx.child Ctx.root 1 1, 0)) := by
  have h := (c5_conditional_descent exC5 Ctx.root 1 [] [plainN] rfl).1
  simpa using h

/-- Claim C6: the spec requires `next()` to reach the exhaustion signal
after finitely many calls on every finite, acyclic, well-formed graph.
On the well-formed graph `exC6 = [Region(body=[])]` the cursor state
equals `(root, 0)` — the Region node — after every number of calls, so
`next()` returns that same node forever and the exhaustion signal is
never returned.  This is the evaluation of the code at the failing
input. -/
theorem c6_termination_fails_on_code :
    ∀ k, iterState exC6 k = Except.ok (some (Ctx.root, 0)) := by
  intro k
  have h := @iterState_fix exC6 (Ctx.root, 0) 0 rfl rfl k
  simpa using h

/-- Claim C7: once the cursor is the null/exhausted sentinel (`none`),
`next()` returns the exhaustion signal and leaves the state unchanged:
`move_next` returns immediately when `*current_ == nullptr`. -/
theorem c7_exhaustion_idempotent (g : List GNode) :
    nextCall g none = Except.ok (none, none) ∧
    move_next g none = Except.ok none :=
  ⟨rfl, rfl⟩

/-- Claim C8: for a graph whose root block is empty, the freshly
constructed cursor is already the exhausted sentinel and the first call
to `next()` returns the exhaustion signal. -/
theorem c8_empty_root_exhausted (g : List GNode) (h : g.isEmpty = true) :
    initState g = none ∧
    nextCall g (initState g) = Except.ok (none, none) := by
  have h0 : initState g = none := by rw [initState, if_pos h]
  exact ⟨h0, by rw [h0]; rfl⟩

/-- Witness for C8 at the empty graph. -/
theorem c8_empty_root_exhausted_witness :
    initState ([] : List GNode) = none ∧
    nextCall ([] : List GNode) (initState []) = Except.ok (none, none) :=
  c8_empty_root_exhausted [] rfl

/-- Claim C9: during a climb, an owning node whose kind is not
If/Loop/With makes `move_up` fail with the internal-consistency error
(`badOwnerKind`, the `throw std::runtime_error` branch), as shown on the
malformed graph `exBadOwner` where a plain node owns a child block; and
on a well-formed graph with a resolvable climb context `move_up` never
returns any error. -/
theorem c9_bad_owner_kind (g : List GNode) (ctx : Ctx) (idx : Nat)
    (hwf : WFBlock g) (hctx : (blockAt g ctx).isSome = true) :
    (∃ r, move_up g ctx idx = Except.ok r) ∧
    move_up exBadOwner (Ctx.child Ctx.root 0 0) 0 =
      Except.error IterErr.badOwnerKind := by
  rcases move_up_spec hwf ctx idx hctx with ⟨r, hr, _⟩
  exact ⟨⟨r, hr⟩, rfl⟩

/-- Witness for C9: climbing from the else-block of the Conditional in
the well-formed graph `exC5` succeeds (no error), while the malformed
owner raises. -/
theorem c9_bad_owner_kind_witness :
    (∃ r, move_up exC5 (Ctx.child Ctx.root 1 1) 0 = Except.ok r) ∧
    move_up exBadOwner (Ctx.child Ctx.root 0 0) 0 =
      Except.error IterErr.badOwnerKind :=
  c9_bad_owner_kind exC5 (Ctx.child Ctx.root 1 1) 0 wf_exC5 rfl

/-- Claim C10: on a well-formed graph with a non-empty root block, after
construction and after every number of `next()` calls the cursor is
either the exhausted sentinel or points at an actual node of some block
(its index is in range); it is never left at a block's end position, and
no call fails. -/
theorem c10_cursor_invariant (g : List GNode) (hwf : WFBlock g)
    (_hne : g.isEmpty = false) (n : Nat) :
    ∃ s, iterState g n = Except.ok s ∧
      (s = none ∨ ∃ p, s = some p ∧ (nodeAt g p).isSome = true) := by
  rcases iterState_spec hwf n with ⟨s, hs, hv⟩
  refine ⟨s, hs, ?_⟩
  cases s with
  | none => exact Or.inl rfl
  | some p => exact Or.inr ⟨p, rfl, hv p rfl⟩

/-- Witness for C10 on `exC5` after two calls. -/
theorem c10_cursor_invariant_witness :
    ∃ s, iterState exC5 2 = Except.ok s ∧
      (s = none ∨ ∃ p, s = some p ∧ (nodeAt exC5 p).isSome = true) :=
  c10_cursor_invariant exC5 wf_exC5 rfl 2

end DFGI
